import Mathlib

/-
Verification of the lead-dashboard ingestion / aggregation pipeline.

The repository's UI (src/App.tsx, src/types.ts) consumes three functions of a
dataService module whose source is not part of the repository snapshot:
`parseCSV`, `calculateMetrics` and the lead scorer.  Those are modelled here
from the specification's words (each such definition says so in its doc
comment); everything else (the Company and DashboardMetrics shapes, the UI
filter `filteredData`, the CSV export `handleExport`) is translated directly
from the TypeScript source.  Strings are processed as `List Char` so that all
functions are structurally recursive and evaluate inside the kernel.
-/

namespace LeadDemo

/-! ## Character and string helpers -/

/-- Remove leading and trailing whitespace from a character list. -/
def trimCh (l : List Char) : List Char :=
  ((l.dropWhile Char.isWhitespace).reverse.dropWhile Char.isWhitespace).reverse

/-- `String.trim`, modelled over the character list. -/
def trimS (s : String) : String :=
  String.mk (trimCh s.data)

/-- Lower-case every character of a string (models `toLowerCase()`). -/
def lowerS (s : String) : String :=
  String.mk (s.data.map Char.toLower)

/-- `startsWithCh needle hay` is true when `needle` is an initial run of `hay`. -/
def startsWithCh : List Char → List Char → Bool
  | [], _ => true
  | _ :: _, [] => false
  | c :: n, d :: h => c == d && startsWithCh n h

/-- `containsSub needle hay` is true when `needle` occurs contiguously in `hay`
(models JavaScript `String.includes`). -/
def containsSub (needle : List Char) : List Char → Bool
  | [] => needle.isEmpty
  | c :: t => startsWithCh needle (c :: t) || containsSub needle t

/-- `chopLead l pre` returns `l` without the initial run `pre`, or `none` when
`pre` is not an initial run of `l`. -/
def chopLead : List Char → List Char → Option (List Char)
  | l, [] => some l
  | [], _ :: _ => none
  | c :: l, d :: pre => if c == d then chopLead l pre else none

/-- Numeric value of a digit string (most significant digit first). -/
def digitsToNat (l : List Char) : Nat :=
  l.foldl (fun a c => a * 10 + (c.toNat - 48)) 0

/-- Prepend a character to the first chunk of a chunk list. -/
def consHead (c : Char) : List (List Char) → List (List Char)
  | [] => [[c]]
  | h :: t => (c :: h) :: t

/-- Split a character stream at a separator character, except inside
double-quoted stretches (a quote toggles the in-quotes flag and is kept).
Used with `\n` for record splitting and with `,` for field splitting,
per the spec's RowParser contract (header line + data lines, comma-delimited,
standard CSV quoting). -/
def splitSep (sep : Char) : List Char → Bool → List (List Char)
  | [], _ => [[]]
  | c :: rest, inQ =>
    if c == '"' then consHead c (splitSep sep rest (!inQ))
    else if c == sep && !inQ then [] :: splitSep sep rest inQ
    else consHead c (splitSep sep rest inQ)

/-- Drop a single trailing carriage return (tolerates CRLF newlines). -/
def stripCR (l : List Char) : List Char :=
  match l.reverse with
  | '\r' :: t => t.reverse
  | _ => l

/-- Best-effort unquoting of one CSV field: a leading quote opens a quoted
body in which a doubled quote stands for one quote and a single quote closes
the field; unquoted fields are kept as they are. -/
def unquoteBody : List Char → List Char
  | [] => []
  | '"' :: '"' :: rest => '"' :: unquoteBody rest
  | '"' :: _ => []
  | c :: rest => c :: unquoteBody rest

/-- Unquote a field (see `unquoteBody`). -/
def unquoteField (l : List Char) : List Char :=
  match l with
  | '"' :: rest => unquoteBody rest
  | _ => l

/-- Modelled from the spec: the RowParser (the dataService module holding it is
not in the repository snapshot).  Decodes raw CSV text into the grid of field
strings: lines split on `\n` outside quotes, a trailing `\r` stripped from
each line, fields split on `,` outside quotes and unquoted. -/
def parseGrid (cs : List Char) : List (List String) :=
  (splitSep '\n' cs false).map
    (fun line => (splitSep ',' (stripCR line) false).map
      (fun f => String.mk (unquoteField f)))

/-! ## Data model (src/types.ts) -/

/-- The normalized entity of src/types.ts (`Company`, lines 12-27).  The
TypeScript interface omits `leadScore`, yet src/App.tsx reads
`company.leadScore` (lines 105, 284, 344-346, 435) and the spec declares it as
an integer in `[0,100]`; the field is included here, and claim C6 records the
mismatch in the interface declaration. -/
structure Company where
  id : String
  name : String
  category : String
  city : String
  emails : List String
  phones : List String
  linkedIns : List String
  whatsapps : List String
  website : String
  googleMapsUrl : String
  hasEmail : Bool
  hasPhone : Bool
  hasLinkedIn : Bool
  isStaff : Bool
  leadScore : Nat
  deriving DecidableEq, Repr

/-- The nested `distribution` object of `DashboardMetrics` (src/types.ts,
lines 38-43). -/
structure Distribution where
  emailOnly : Nat
  phoneOnly : Nat
  linkedInOnly : Nat
  multiple : Nat
  deriving DecidableEq, Repr

/-- The dashboard summary of src/types.ts (`DashboardMetrics`, lines 29-46),
with `{name, value}` pairs modelled as `String × Nat`.  The TypeScript
interface omits `avgLeadScore`, yet src/App.tsx reads `metrics.avgLeadScore`
(line 202) and the spec declares it; the field is included here, and claim C8
records the mismatch in the interface declaration. -/
structure DashboardMetrics where
  totalCompanies : Nat
  withEmailCount : Nat
  withPhoneCount : Nat
  completeness : Nat
  locationCount : Nat
  emailCoverage : Nat
  phoneCoverage : Nat
  linkedInCoverage : Nat
  distribution : Distribution
  topCategories : List (String × Nat)
  topLocations : List (String × Nat)
  avgLeadScore : Nat
  deriving DecidableEq, Repr

/-! ## Record construction (spec-modelled pipeline) -/

/-- A raw CSV row as an association list from column name to field value. -/
abbrev RawRow : Type := List (String × String)

/-- Modelled from the spec: pair each header name with the row's field at the
same position, padding missing trailing fields with the empty string. -/
def mkRow (header : List String) (fields : List String) : RawRow :=
  header.zip (fields ++ List.replicate (header.length - fields.length) "")

/-- Value of a named column, empty string when the column is absent. -/
def getCol (row : RawRow) (key : String) : String :=
  match List.find? (fun p => p.1 == key) row with
  | some p => p.2
  | none => ""

/-- A fully blank line: every column value is the empty string (such rows are
skipped by the RecordBuilder per the spec). -/
def isBlankRow (row : RawRow) : Bool :=
  List.all row (fun p => p.2 == "")

/-- Modelled from the spec: the index of an indexed-family column, i.e.
`famIdx "emails" "emails/2" = some 2`, and `none` for any other key. -/
def famIdx (fam : String) (key : String) : Option Nat :=
  match chopLead key.data (fam.data ++ ['/']) with
  | none => none
  | some rest =>
    if rest ≠ [] ∧ rest.all Char.isDigit then some (digitsToNat rest) else none

/-- Insert into a list of (index, value) pairs kept ascending by index. -/
def insertAsc (p : Nat × String) : List (Nat × String) → List (Nat × String)
  | [] => [p]
  | q :: rest => if p.1 ≤ q.1 then p :: q :: rest else q :: insertAsc p rest

/-- Ascending insertion sort on the index of (index, value) pairs. -/
def sortAscIdx : List (Nat × String) → List (Nat × String)
  | [] => []
  | p :: rest => insertAsc p (sortAscIdx rest)

/-- Modelled from the spec: the ContactExtractor.  Collect every column of the
row named `fam/<n>` in ascending numeric index order and keep the non-empty
trimmed values. -/
def familyValues (row : RawRow) (fam : String) : List String :=
  let idxed := row.filterMap
    (fun p => (famIdx fam p.1).map (fun n => (n, trimS p.2)))
  ((sortAscIdx idxed).map Prod.snd).filter (fun s => s != "")

/-- Split at `;` or `,` (the recognized delimiters of a scalar WhatsApp
column). -/
def splitAny : List Char → List (List Char)
  | [] => [[]]
  | c :: rest =>
    if c == ';' || c == ',' then [] :: splitAny rest else consHead c (splitAny rest)

/-- Modelled from the spec: WhatsApp numbers come from `whatsapps/<n>` columns
when present, otherwise from one delimited scalar `whatsapps` column. -/
def whatsOf (row : RawRow) : List String :=
  let fam := familyValues row "whatsapps"
  if !fam.isEmpty then fam
  else ((splitAny (getCol row "whatsapps").data).map
    (fun l => String.mk (trimCh l))).filter (fun s => s != "")

/-- Modelled from the spec: the phone list, from the `phone` column with
`phoneUnformatted` as fallback, as a singleton list when non-empty. -/
def phonesOf (row : RawRow) : List String :=
  let p := trimS (getCol row "phone")
  let pu := trimS (getCol row "phoneUnformatted")
  let v := if p != "" then p else pu
  if v != "" then [v] else []

/-- Modelled from the spec: the Classifier's staff/service keyword set, taken
from the spec's examples (catering, audio/visual, recruiting, staffing,
photography). -/
def staffKeywords : List String :=
  ["catering", "audio", "visual", "recruit", "staff", "photograph"]

/-- Modelled from the spec: the Classifier.  Case-insensitive substring match
of the category against the staff keyword set; no match means client/venue. -/
def classify (category : String) : Bool :=
  staffKeywords.any (fun k => containsSub k.data (category.data.map Char.toLower))

/-- Modelled from the spec: the LeadScorer.  A documented monotonic weight
table over the five contact signals (email, phone, LinkedIn, WhatsApp,
website-or-maps link), a floor of 10 for a record with no signal, capped at
100, and exactly 100 when every signal is present. -/
def leadScoreOf (email phone linked whats site : Bool) : Nat :=
  min 100 (10 + cond email 25 0 + cond phone 25 0 + cond linked 20 0
    + cond whats 10 0 + cond site 10 0)

/-- Modelled from the spec: the RecordBuilder.  One `Company` per surviving
row: scalar columns copied with empty-string defaults (`title` is the name,
`categoryName` the category, `url` the website), the contact families
extracted, the three `hasX` flags set strictly from the list lengths, the
classifier and scorer invoked, and the id the zero-based row token. -/
def buildCompany (i : Nat) (row : RawRow) : Company :=
  let emails := familyValues row "emails"
  let phones := phonesOf row
  let linkedIns := familyValues row "linkedIns"
  let whats := whatsOf row
  let website := trimS (getCol row "url")
  let maps := trimS (getCol row "googleMapsUrl")
  { id := Nat.repr i
    name := getCol row "title"
    category := getCol row "categoryName"
    city := getCol row "city"
    emails := emails
    phones := phones
    linkedIns := linkedIns
    whatsapps := whats
    website := website
    googleMapsUrl := maps
    hasEmail := !emails.isEmpty
    hasPhone := !phones.isEmpty
    hasLinkedIn := !linkedIns.isEmpty
    isStaff := classify (getCol row "categoryName")
    leadScore := leadScoreOf (!emails.isEmpty) (!phones.isEmpty)
      (!linkedIns.isEmpty) (!whats.isEmpty)
      (website != "" || maps != "") }

/-- Pair every element with its position, starting at `i`. -/
def enumIdx (i : Nat) : List α → List (Nat × α)
  | [] => []
  | a :: as => (i, a) :: enumIdx (i + 1) as

/-- Modelled from the spec: the ingestion entry point
`parseCSV(text) -> Company[]`.  First grid line is the header, fully blank
rows are skipped, ids are assigned zero-based in row order. -/
def parseCSV (text : String) : List Company :=
  match parseGrid text.data with
  | [] => []
  | header :: rows =>
    let kept := (rows.map (mkRow header)).filter (fun r => !isBlankRow r)
    (enumIdx 0 kept).map (fun p => buildCompany p.1 p.2)

/-! ## Metrics aggregation (spec-modelled) -/

/-- How many of the three contact flags of a company are set. -/
def flagCount (c : Company) : Nat :=
  cond c.hasEmail 1 0 + cond c.hasPhone 1 0 + cond c.hasLinkedIn 1 0

/-- Email is the only contact method. -/
def inEmailOnly (c : Company) : Bool :=
  c.hasEmail && !c.hasPhone && !c.hasLinkedIn

/-- Phone is the only contact method. -/
def inPhoneOnly (c : Company) : Bool :=
  c.hasPhone && !c.hasEmail && !c.hasLinkedIn

/-- LinkedIn is the only contact method. -/
def inLinkedInOnly (c : Company) : Bool :=
  c.hasLinkedIn && !c.hasEmail && !c.hasPhone

/-- At least two of the three contact methods are present. -/
def inMultiple (c : Company) : Bool :=
  decide (2 ≤ flagCount c)

/-- First-occurrence deduplication: keep each key the first time it appears,
skipping keys already seen (`seen` accumulates them). -/
def firstSeenAux (seen : List String) : List String → List String
  | [] => []
  | k :: rest =>
    if k ∈ seen then firstSeenAux seen rest
    else k :: firstSeenAux (k :: seen) rest

/-- The distinct keys of a list in first-seen order. -/
def firstSeen (xs : List String) : List String :=
  firstSeenAux [] xs

/-- Modelled from the spec: group by exact (case-sensitive) string — the empty
string being a valid key — and count occurrences, keys in first-seen order. -/
def groupCounts (keys : List String) : List (String × Nat) :=
  (firstSeen keys).map (fun k => (k, keys.count k))

/-- Stable descending insertion on the count: the inserted pair goes in front
of the first pair whose count is not larger, so an earlier (first-seen
earlier) pair keeps its place among equal counts. -/
def insertDesc (p : String × Nat) : List (String × Nat) → List (String × Nat)
  | [] => [p]
  | q :: rest => if q.2 ≤ p.2 then p :: q :: rest else q :: insertDesc p rest

/-- Stable insertion sort, descending by count. -/
def sortDesc : List (String × Nat) → List (String × Nat)
  | [] => []
  | p :: rest => insertDesc p (sortDesc rest)

/-- Modelled from the spec: the configured top-N length (the spec observes a
small fixed N, e.g. 5-10). -/
def topN : Nat := 10

/-- Modelled from the spec: group, count, sort descending by count with
first-seen order as the tie-break, truncate to the top-N. -/
def topOf (keys : List String) : List (String × Nat) :=
  (sortDesc (groupCounts keys)).take topN

/-- Modelled from the spec: integer-rounded percentage `round(100*count/total)`
(round half up), short-circuited to 0 when the total is 0. -/
def roundPct (count total : Nat) : Nat :=
  if total = 0 then 0 else (200 * count + total) / (2 * total)

/-- Modelled from the spec: the aggregation entry point
`calculateMetrics(companies) -> DashboardMetrics`.  Counts, rounded coverage
percentages (0 on an empty collection), the completeness index aggregating
the three coverages, the count of distinct non-empty cities, the four
distribution buckets, the two top-N rankings, and the rounded mean lead
score. -/
def calculateMetrics (cs : List Company) : DashboardMetrics :=
  let total := cs.length
  let we := cs.countP (fun c => c.hasEmail)
  let wp := cs.countP (fun c => c.hasPhone)
  let wl := cs.countP (fun c => c.hasLinkedIn)
  { totalCompanies := total
    withEmailCount := we
    withPhoneCount := wp
    completeness := roundPct (we + wp + wl) (3 * total)
    locationCount :=
      (firstSeen ((cs.map (fun c => c.city)).filter (fun s => s != ""))).length
    emailCoverage := roundPct we total
    phoneCoverage := roundPct wp total
    linkedInCoverage := roundPct wl total
    distribution :=
      { emailOnly := cs.countP inEmailOnly
        phoneOnly := cs.countP inPhoneOnly
        linkedInOnly := cs.countP inLinkedInOnly
        multiple := cs.countP inMultiple }
    topCategories := topOf (cs.map (fun c => c.category))
    topLocations := topOf (cs.map (fun c => c.city))
    avgLeadScore :=
      if total = 0 then 0
      else (2 * (cs.map (fun c => c.leadScore)).sum + total) / (2 * total) }

/-! ## UI filter (src/App.tsx, lines 63-83) -/

/-- The type filter of src/App.tsx (`'all' | 'staff' | 'clients'`). -/
inductive FilterType where
  | all
  | staff
  | clients
  deriving DecidableEq, Repr

/-- The search predicate of src/App.tsx lines 74-81: the lower-cased query is
a substring of the lower-cased name, category or city. -/
def matchesQuery (q : String) (c : Company) : Bool :=
  let ql := (lowerS q).data
  containsSub ql (lowerS c.name).data
    || containsSub ql (lowerS c.category).data
    || containsSub ql (lowerS c.city).data

/-- The type filter of src/App.tsx lines 66-68: keep staff, keep clients, or
keep everything. -/
def stageType (data : List Company) : FilterType → List Company
  | .all => data
  | .staff => data.filter (fun c => c.isStaff)
  | .clients => data.filter (fun c => !c.isStaff)

/-- The score filter of src/App.tsx line 71, applied only when the floor is
positive. -/
def stageScore (ms : Nat) (l : List Company) : List Company :=
  if 0 < ms then l.filter (fun c => ms ≤ c.leadScore) else l

/-- The search filter of src/App.tsx lines 74-81, applied only when the query
is non-empty (JavaScript string truthiness). -/
def stageSearch (q : String) (l : List Company) : List Company :=
  if q != "" then l.filter (matchesQuery q) else l

/-- The `filteredData` memo of src/App.tsx lines 63-83: the staff/clients
filter, then the score floor, then the search filter, mirroring the
sequential reassignment of `result`. -/
def filteredData (data : List Company) (filterType : FilterType)
    (minScore : Nat) (searchQuery : String) : List Company :=
  stageSearch searchQuery (stageScore minScore (stageType data filterType))

/-! ## CSV export (src/App.tsx, lines 99-120) -/

/-- Escape quotes by doubling them (CSV quoting). -/
def escQ : List Char → List Char
  | [] => []
  | '"' :: rest => '"' :: '"' :: escQ rest
  | c :: rest => c :: escQ rest

/-- Quote a field when it holds a comma, quote or line break, as Papa.unparse
does by default. -/
def quoteField (f : List Char) : List Char :=
  if f.any (fun c => c == ',' || c == '"' || c == '\n' || c == '\r') then
    '"' :: (escQ f ++ ['"'])
  else f

/-- Interleave a separator between chunks. -/
def joinWith (sep : List Char) : List (List Char) → List Char
  | [] => []
  | [x] => x
  | x :: y :: rest => x ++ sep ++ joinWith sep (y :: rest)

/-- The `'; '` join of multi-value fields in handleExport. -/
def joinSemi (xs : List String) : String :=
  String.mk (joinWith [';', ' '] (xs.map (fun s => s.data)))

/-- The export's column headers (src/App.tsx lines 101-110). -/
def headerFields : List String :=
  ["Name", "Category", "City", "Lead Score", "Phone", "Email", "LinkedIn", "Type"]

/-- One export row of handleExport (src/App.tsx lines 101-110): the scalar
fields, the lead score, the `'; '`-joined contact lists and the role label. -/
def rowFields (c : Company) : List String :=
  [c.name, c.category, c.city, Nat.repr c.leadScore,
    joinSemi c.phones, joinSemi c.emails, joinSemi c.linkedIns,
    if c.isStaff then "Service Provider" else "Client"]

/-- CSV serialization of a grid (Papa.unparse: quoted fields joined by commas,
records joined by line breaks). -/
def unparse (rows : List (List String)) : List Char :=
  joinWith ['\n']
    (rows.map (fun r => joinWith [','] (r.map (fun f => quoteField f.data))))

/-- The CSV text produced by handleExport (src/App.tsx lines 99-120) for a
company collection: the header row then one row per company. -/
def exportCSV (cs : List Company) : String :=
  String.mk (unparse (headerFields :: cs.map rowFields))

/-! ## Statement-side definitions and concrete sample data -/

/-- Position of the first occurrence of `k` (the list length when absent):
the tie-break order of the top-N rankings. -/
def firstIdx (k : String) : List String → Nat
  | [] => 0
  | x :: rest => if x == k then 0 else firstIdx k rest + 1

/-- What claim C4 asserts of one top-N ranking `tc` computed from the key
list `keys`: truncation to `topN`, each entry carrying the exact
(case-sensitive) occurrence count of its key, descending counts with the
first-occurrence position as tie-break, and no omitted key outranking a
kept entry. -/
def topListOk (keys : List String) (tc : List (String × Nat)) : Prop :=
  tc.length = min topN (firstSeen keys).length
  ∧ (∀ p ∈ tc, p.2 = keys.count p.1 ∧ p.1 ∈ keys)
  ∧ tc.Pairwise (fun p q => q.2 < p.2 ∨ (q.2 = p.2 ∧ firstIdx p.1 keys < firstIdx q.1 keys))
  ∧ (∀ k ∈ keys, k ∉ tc.map Prod.fst → ∀ p ∈ tc, keys.count k ≤ p.2)

/-- A character the CSV serializer never has to escape. -/
def cleanCh (c : Char) : Bool :=
  !(c == ',' || c == '"' || c == '\n' || c == '\r')

/-- A string of unescaped characters. -/
def cleanS (s : String) : Bool :=
  s.data.all cleanCh

/-- A company whose exported fields need no CSV quoting and whose lead score
is in the documented range. -/
def cleanCompany (c : Company) : Bool :=
  cleanS c.name && cleanS c.category && cleanS c.city
    && c.phones.all cleanS && c.emails.all cleanS && c.linkedIns.all cleanS
    && decide (c.leadScore ≤ 100)

/-- The company that re-ingesting one exported row produces: every column
header of the export is unrecognized by the ingestion, so every field falls
back to its default (the scorer's floor is 10). -/
def emptyCompany (i : Nat) : Company :=
  { id := Nat.repr i, name := "", category := "", city := "", emails := [],
    phones := [], linkedIns := [], whatsapps := [], website := "",
    googleMapsUrl := "", hasEmail := false, hasPhone := false,
    hasLinkedIn := false, isStaff := false, leadScore := 10 }

/-- Concrete CSV text used by the witness theorems. -/
def sampleCSV : String :=
  "title,categoryName,city,emails/0,phone\nAcme,Catering,Austin,a@x.com,555\nBeta,Venue,Austin,,\nGamma,Catering,,c@x.com,"

/-- The first company of the sample ingestion (with a harmless default). -/
def sampleCo : Company :=
  (parseCSV sampleCSV).headD (emptyCompany 0)

/-- A concrete company used by the export round-trip counterexample. -/
def coAcme : Company :=
  { id := "7", name := "Acme", category := "Catering", city := "Austin",
    emails := ["a@x.com"], phones := ["555"], linkedIns := [], whatsapps := [],
    website := "", googleMapsUrl := "", hasEmail := true, hasPhone := true,
    hasLinkedIn := false, isStaff := true, leadScore := 60 }

/-- A concrete collection used by the filter witness. -/
def sampleData : List Company :=
  [coAcme, emptyCompany 1,
    { coAcme with id := "2", name := "Crew", isStaff := false, leadScore := 85 }]

/-! ## Theorems -/

theorem bang_isEmpty_iff (l : List α) : ((!l.isEmpty) = true) ↔ 0 < l.length := by
  cases l <;> simp

theorem mem_parseCSV_build {text : String} {c : Company}
    (hc : c ∈ parseCSV text) :
    ∃ i row, c = buildCompany i row := by
  unfold parseCSV at hc
  rcases hgrid : parseGrid text.data with _ | ⟨header, rows⟩ <;> rw [hgrid] at hc
  · simp at hc
  · simp only [List.mem_map] at hc
    obtain ⟨p, _, hpc⟩ := hc
    exact ⟨p.1, p.2, hpc.symm⟩

/-- Claim C1: every `Company` the pipeline produces has `hasEmail` true
exactly when its email list is non-empty, and likewise for `hasPhone` and
`hasLinkedIn`; the flags are derived from the list lengths, never set
independently. -/
theorem hasFlags_match_lists : ∀ (text : String), ∀ c ∈ parseCSV text,
    (c.hasEmail = true ↔ 0 < c.emails.length)
    ∧ (c.hasPhone = true ↔ 0 < c.phones.length)
    ∧ (c.hasLinkedIn = true ↔ 0 < c.linkedIns.length) := by
  intro text c hc
  obtain ⟨i, row, rfl⟩ := mem_parseCSV_build hc
  refine ⟨?_, ?_, ?_⟩ <;>
    simp only [buildCompany] <;>
    exact bang_isEmpty_iff _

/-- Witness for C1: the first company parsed from the sample CSV. -/
theorem hasFlags_match_lists_witness :
    (sampleCo.hasEmail = true ↔ 0 < sampleCo.emails.length)
    ∧ (sampleCo.hasPhone = true ↔ 0 < sampleCo.phones.length)
    ∧ (sampleCo.hasLinkedIn = true ↔ 0 < sampleCo.linkedIns.length) :=
  hasFlags_match_lists sampleCSV sampleCo (by decide)

/-- Claim C6 (supporting theorem): every company the modelled pipeline builds
has a `leadScore` bounded by 100 (it is a `Nat`, hence at least 0).  The claim
itself is recorded as a code bug: the `Company` interface of src/types.ts
omits the `leadScore` field that src/App.tsx reads. -/
theorem leadScore_le_100 : ∀ (text : String), ∀ c ∈ parseCSV text,
    c.leadScore ≤ 100 := by
  intro text c hc
  obtain ⟨i, row, rfl⟩ := mem_parseCSV_build hc
  simp only [buildCompany, leadScoreOf]
  exact Nat.min_le_left _ _

/-- Witness for C6's supporting theorem. -/
theorem leadScore_le_100_witness : sampleCo.leadScore ≤ 100 :=
  leadScore_le_100 sampleCSV sampleCo (by decide)

theorem enumIdx_length : ∀ (l : List α) (i : Nat), (enumIdx i l).length = l.length := by
  intro l
  induction l with
  | nil => intro i; rfl
  | cons a rest ih => intro i; simp [enumIdx, ih]

theorem enumIdx_build_ids : ∀ (l : List RawRow) (i : Nat),
    ((enumIdx i l).map (fun p => buildCompany p.1 p.2)).map (fun c => c.id)
      = (List.range' i l.length).map Nat.repr := by
  intro l
  induction l with
  | nil => intro i; rfl
  | cons r rest ih =>
    intro i
    simp only [enumIdx, List.map_cons, List.length_cons, List.range'_succ]
    exact congrArg (Nat.repr i :: ·) (ih (i + 1))

/-- Claim C5: `parseCSV` is deterministic — equal input texts give equal
company sequences — and the ids are a pure function of the row position
(the zero-based position rendered in decimal), independent of wall-clock
time or randomness. -/
theorem parseCSV_deterministic : ∀ t1 t2 : String, t1 = t2 →
    parseCSV t1 = parseCSV t2
    ∧ (parseCSV t1).map (fun c => c.id)
        = (List.range (parseCSV t1).length).map Nat.repr := by
  intro t1 t2 h
  subst h
  refine ⟨rfl, ?_⟩
  unfold parseCSV
  rcases hgrid : parseGrid t1.data with _ | ⟨header, rows⟩
  · simp
  · rw [List.range_eq_range']
    have h := enumIdx_build_ids
      ((rows.map (mkRow header)).filter (fun r => !isBlankRow r)) 0
    simpa [enumIdx_length] using h

/-- Witness for C5 at the sample CSV. -/
theorem parseCSV_deterministic_witness :
    parseCSV sampleCSV = parseCSV sampleCSV
    ∧ (parseCSV sampleCSV).map (fun c => c.id)
        = (List.range (parseCSV sampleCSV).length).map Nat.repr :=
  parseCSV_deterministic sampleCSV sampleCSV rfl

/-- Claim C7: the lead scorer is deterministic (equal signal assignments give
equal scores) and monotone: turning on any one of the five contact signals,
all else equal, never lowers the score. -/
theorem leadScorer_monotone_deterministic :
    ∀ e p l w s e2 p2 l2 w2 s2 : Bool,
      e = e2 → p = p2 → l = l2 → w = w2 → s = s2 →
      leadScoreOf e p l w s = leadScoreOf e2 p2 l2 w2 s2
      ∧ leadScoreOf false p l w s ≤ leadScoreOf true p l w s
      ∧ leadScoreOf e false l w s ≤ leadScoreOf e true l w s
      ∧ leadScoreOf e p false w s ≤ leadScoreOf e p true w s
      ∧ leadScoreOf e p l false s ≤ leadScoreOf e p l true s
      ∧ leadScoreOf e p l w false ≤ leadScoreOf e p l w true := by
  intro e p l w s e2 p2 l2 w2 s2 h1 h2 h3 h4 h5
  subst h1 h2 h3 h4 h5
  cases e <;> cases p <;> cases l <;> cases w <;> cases s <;> decide

/-- Witness for C7 at a concrete signal assignment. -/
theorem leadScorer_monotone_deterministic_witness :
    leadScoreOf true false false false false
      = leadScoreOf true false false false false
    ∧ leadScoreOf false false false false false
        ≤ leadScoreOf true false false false false
    ∧ leadScoreOf true false false false false
        ≤ leadScoreOf true true false false false
    ∧ leadScoreOf true false false false false
        ≤ leadScoreOf true false true false false
    ∧ leadScoreOf true false false false false
        ≤ leadScoreOf true false false true false
    ∧ leadScoreOf true false false false false
        ≤ leadScoreOf true false false false true :=
  leadScorer_monotone_deterministic true false false false false
    true false false false false rfl rfl rfl rfl rfl

/-- Claim C2: `calculateMetrics` of the empty collection is the all-zero
summary with empty top-N sequences; the zero-total short-circuit means no
division error and no NaN can arise. -/
theorem calculateMetrics_empty :
    (calculateMetrics []).totalCompanies = 0
    ∧ (calculateMetrics []).withEmailCount = 0
    ∧ (calculateMetrics []).withPhoneCount = 0
    ∧ (calculateMetrics []).completeness = 0
    ∧ (calculateMetrics []).locationCount = 0
    ∧ (calculateMetrics []).emailCoverage = 0
    ∧ (calculateMetrics []).phoneCoverage = 0
    ∧ (calculateMetrics []).linkedInCoverage = 0
    ∧ (calculateMetrics []).distribution.emailOnly = 0
    ∧ (calculateMetrics []).distribution.phoneOnly = 0
    ∧ (calculateMetrics []).distribution.linkedInOnly = 0
    ∧ (calculateMetrics []).distribution.multiple = 0
    ∧ (calculateMetrics []).topCategories = []
    ∧ (calculateMetrics []).topLocations = []
    ∧ (calculateMetrics []).avgLeadScore = 0 := by
  decide

theorem bucketCond_exclusive : ∀ c : Company,
    (if inEmailOnly c = true then 1 else 0) + (if inPhoneOnly c = true then 1 else 0)
      + (if inLinkedInOnly c = true then 1 else 0)
      + (if inMultiple c = true then 1 else 0)
      = if 1 ≤ flagCount c then 1 else 0 := by
  intro c
  cases he : c.hasEmail <;> cases hp : c.hasPhone <;> cases hl : c.hasLinkedIn <;>
    simp [inEmailOnly, inPhoneOnly, inLinkedInOnly, inMultiple, flagCount, he, hp, hl]

theorem hasAnyFlag_iff (c : Company) :
    ((c.hasEmail || c.hasPhone || c.hasLinkedIn) = true) ↔ 1 ≤ flagCount c := by
  cases he : c.hasEmail <;> cases hp : c.hasPhone <;> cases hl : c.hasLinkedIn <;>
    simp [flagCount, he, hp, hl]

theorem bucket_sum_eq : ∀ cs : List Company,
    cs.countP inEmailOnly + cs.countP inPhoneOnly + cs.countP inLinkedInOnly
      + cs.countP inMultiple
      = cs.countP (fun c => c.hasEmail || c.hasPhone || c.hasLinkedIn) := by
  intro cs
  induction cs with
  | nil => rfl
  | cons c rest ih =>
    simp only [List.countP_cons]
    have hhead := bucketCond_exclusive c
    have hconv : (if (c.hasEmail || c.hasPhone || c.hasLinkedIn) = true then 1 else 0)
        = if 1 ≤ flagCount c then 1 else 0 :=
      if_congr (hasAnyFlag_iff c) rfl rfl
    omega

/-- Claim C3: the four distribution buckets of `calculateMetrics` count the
companies by their contact flags — exactly one flag set puts a company in the
matching `emailOnly`/`phoneOnly`/`linkedInOnly` bucket, two or three flags in
`multiple`, zero flags in no bucket (the bucket predicates are mutually
exclusive and cover exactly the companies with at least one flag) — and
consequently the four buckets sum to at most `totalCompanies`. -/
theorem distribution_buckets_spec : ∀ cs : List Company,
    (calculateMetrics cs).distribution.emailOnly = cs.countP inEmailOnly
    ∧ (calculateMetrics cs).distribution.phoneOnly = cs.countP inPhoneOnly
    ∧ (calculateMetrics cs).distribution.linkedInOnly = cs.countP inLinkedInOnly
    ∧ (calculateMetrics cs).distribution.multiple = cs.countP inMultiple
    ∧ (∀ c : Company,
        (if inEmailOnly c = true then 1 else 0)
          + (if inPhoneOnly c = true then 1 else 0)
          + (if inLinkedInOnly c = true then 1 else 0)
          + (if inMultiple c = true then 1 else 0)
          = if 1 ≤ flagCount c then 1 else 0)
    ∧ (∀ c : Company, flagCount c = 1 →
        inEmailOnly c = c.hasEmail ∧ inPhoneOnly c = c.hasPhone
          ∧ inLinkedInOnly c = c.hasLinkedIn ∧ inMultiple c = false)
    ∧ (∀ c : Company, 2 ≤ flagCount c →
        inMultiple c = true ∧ inEmailOnly c = false
          ∧ inPhoneOnly c = false ∧ inLinkedInOnly c = false)
    ∧ (∀ c : Company, flagCount c = 0 →
        inEmailOnly c = false ∧ inPhoneOnly c = false
          ∧ inLinkedInOnly c = false ∧ inMultiple c = false)
    ∧ (calculateMetrics cs).distribution.emailOnly
        + (calculateMetrics cs).distribution.phoneOnly
        + (calculateMetrics cs).distribution.linkedInOnly
        + (calculateMetrics cs).distribution.multiple
        ≤ (calculateMetrics cs).totalCompanies := by
  intro cs
  refine ⟨rfl, rfl, rfl, rfl, bucketCond_exclusive, ?_, ?_, ?_, ?_⟩
  · intro c h1
    cases he : c.hasEmail <;> cases hp : c.hasPhone <;> cases hl : c.hasLinkedIn <;>
      simp_all [inEmailOnly, inPhoneOnly, inLinkedInOnly, inMultiple, flagCount]
  · intro c h2
    cases he : c.hasEmail <;> cases hp : c.hasPhone <;> cases hl : c.hasLinkedIn <;>
      simp_all [inEmailOnly, inPhoneOnly, inLinkedInOnly, inMultiple, flagCount]
  · intro c h0
    cases he : c.hasEmail <;> cases hp : c.hasPhone <;> cases hl : c.hasLinkedIn <;>
      simp_all [inEmailOnly, inPhoneOnly, inLinkedInOnly, inMultiple, flagCount]
  · show cs.countP inEmailOnly + cs.countP inPhoneOnly + cs.countP inLinkedInOnly
      + cs.countP inMultiple ≤ cs.length
    rw [bucket_sum_eq cs]
    exact List.countP_le_length _

theorem stageType_sublist (data : List Company) (ft : FilterType) :
    (stageType data ft).Sublist data := by
  cases ft
  · exact List.Sublist.refl data
  · exact List.filter_sublist data
  · exact List.filter_sublist data

theorem stageScore_sublist (ms : Nat) (l : List Company) :
    (stageScore ms l).Sublist l := by
  unfold stageScore
  split
  · exact List.filter_sublist l
  · exact List.Sublist.refl l

theorem stageSearch_sublist (q : String) (l : List Company) :
    (stageSearch q l).Sublist l := by
  unfold stageSearch
  split
  · exact List.filter_sublist l
  · exact List.Sublist.refl l

/-- Claim C10: the UI filter returns an order-preserving subsequence of the
input (the input itself is never mutated: every stage of `filteredData` is a
pure `filter`); under the staff filter every retained company has `isStaff`
true, under the clients filter `isStaff` false, and under a positive score
floor every retained company's `leadScore` meets the floor. -/
theorem filteredData_spec : ∀ (data : List Company) (ft : FilterType)
    (ms : Nat) (q : String),
    (filteredData data ft ms q).Sublist data
    ∧ (∀ c ∈ filteredData data FilterType.staff ms q, c.isStaff = true)
    ∧ (∀ c ∈ filteredData data FilterType.clients ms q, c.isStaff = false)
    ∧ (0 < ms → ∀ c ∈ filteredData data ft ms q, ms ≤ c.leadScore) := by
  intro data ft ms q
  refine ⟨?_, ?_, ?_, ?_⟩
  · exact ((stageSearch_sublist q _).trans (stageScore_sublist ms _)).trans
      (stageType_sublist data ft)
  · intro c hc
    have h1 := (stageScore_sublist ms (stageType data .staff)).subset
      ((stageSearch_sublist q _).subset hc)
    exact (List.mem_filter.mp h1).2
  · intro c hc
    have h1 := (stageScore_sublist ms (stageType data .clients)).subset
      ((stageSearch_sublist q _).subset hc)
    have := (List.mem_filter.mp h1).2
    simpa using this
  · intro hms c hc
    have h1 : c ∈ stageScore ms (stageType data ft) :=
      (stageSearch_sublist q _).subset hc
    rw [stageScore, if_pos hms] at h1
    exact of_decide_eq_true (List.mem_filter.mp h1).2

/-- Claim C8 (supporting theorem): in the modelled aggregation,
`avgLeadScore` is 0 on the empty collection, and on a non-empty collection it
is the arithmetic mean of the lead scores rounded to the nearest integer
(half up): writing `n` for the size, `s` for the score sum and `a` for the
reported average, `2*n*a ≤ 2*s + n` and `2*s ≤ 2*n*a + n`.  The claim itself
is recorded as a code bug: the `DashboardMetrics` interface of src/types.ts
omits the `avgLeadScore` field that src/App.tsx reads. -/
theorem avgLeadScore_rounded_mean : ∀ cs : List Company,
    (calculateMetrics []).avgLeadScore = 0
    ∧ (cs ≠ [] →
        2 * cs.length * (calculateMetrics cs).avgLeadScore
            ≤ 2 * (cs.map (fun c => c.leadScore)).sum + cs.length
        ∧ 2 * (cs.map (fun c => c.leadScore)).sum
            ≤ 2 * cs.length * (calculateMetrics cs).avgLeadScore + cs.length) := by
  intro cs
  refine ⟨rfl, fun h => ?_⟩
  have hn : 0 < cs.length := List.length_pos.mpr h
  have havg : (calculateMetrics cs).avgLeadScore
      = (2 * (cs.map (fun c => c.leadScore)).sum + cs.length)
          / (2 * cs.length) := by
    simp only [calculateMetrics]
    rw [if_neg (by omega)]
  rw [havg]
  have hd := Nat.div_add_mod
    (2 * (cs.map (fun c => c.leadScore)).sum + cs.length) (2 * cs.length)
  have hm : (2 * (cs.map (fun c => c.leadScore)).sum + cs.length)
      % (2 * cs.length) < 2 * cs.length := Nat.mod_lt _ (by omega)
  generalize hM : (2 * (cs.map (fun c => c.leadScore)).sum + cs.length)
      % (2 * cs.length) = M at hd hm
  generalize hD : (2 * (cs.map (fun c => c.leadScore)).sum + cs.length)
      / (2 * cs.length) = D at hd ⊢
  generalize hP : 2 * cs.length * D = P at hd ⊢
  omega

theorem insertDesc_perm (p : String × Nat) (l : List (String × Nat)) :
    (insertDesc p l).Perm (p :: l) := by
  induction l with
  | nil => exact List.Perm.refl _
  | cons q rest ih =>
    simp only [insertDesc]
    split
    · exact List.Perm.refl _
    · exact (List.Perm.cons q ih).trans (List.Perm.swap p q rest)

theorem sortDesc_perm (l : List (String × Nat)) : (sortDesc l).Perm l := by
  induction l with
  | nil => exact List.Perm.refl _
  | cons p rest ih =>
    simp only [sortDesc]
    exact (insertDesc_perm p (sortDesc rest)).trans (List.Perm.cons p ih)

theorem pairwise_insertDesc {S : String × Nat → String × Nat → Prop}
    {p : String × Nat} :
    ∀ {l : List (String × Nat)},
      l.Pairwise (fun a b => b.2 < a.2 ∨ (b.2 = a.2 ∧ S a b)) →
      (∀ q ∈ l, S p q) →
      (insertDesc p l).Pairwise (fun a b => b.2 < a.2 ∨ (b.2 = a.2 ∧ S a b)) := by
  intro l
  induction l with
  | nil =>
    intro _ _
    simp [insertDesc]
  | cons q rest ih =>
    intro hl hp
    rcases List.pairwise_cons.mp hl with ⟨hq, hrest⟩
    simp only [insertDesc]
    split
    · rename_i hle
      refine List.Pairwise.cons ?_ hl
      intro x hx
      rcases List.mem_cons.mp hx with rfl | hx'
      · rcases hle.lt_or_eq with hlt | heq
        · exact Or.inl hlt
        · exact Or.inr ⟨heq, hp x (List.mem_cons_self x rest)⟩
      · have hqx := hq x hx'
        rcases hqx with hlt | ⟨heq, _⟩
        · exact Or.inl (lt_of_lt_of_le hlt hle)
        · have hxle : x.2 ≤ p.2 := by omega
          rcases hxle.lt_or_eq with h1 | h1
          · exact Or.inl h1
          · exact Or.inr ⟨h1, hp x (List.mem_cons_of_mem q hx')⟩
    · rename_i hgt
      have hpq : p.2 < q.2 := Nat.lt_of_not_le hgt
      refine List.Pairwise.cons ?_
        (ih hrest (fun x hx => hp x (List.mem_cons_of_mem q hx)))
      intro x hx
      have hx' : x ∈ p :: rest := (insertDesc_perm p rest).subset hx
      rcases List.mem_cons.mp hx' with rfl | hx''
      · exact Or.inl hpq
      · exact hq x hx''

theorem pairwise_sortDesc {S : String × Nat → String × Nat → Prop} :
    ∀ {l : List (String × Nat)}, l.Pairwise S →
      (sortDesc l).Pairwise (fun a b => b.2 < a.2 ∨ (b.2 = a.2 ∧ S a b)) := by
  intro l
  induction l with
  | nil =>
    intro _
    simp [sortDesc]
  | cons p rest ih =>
    intro hl
    rcases List.pairwise_cons.mp hl with ⟨hp, hrest⟩
    simp only [sortDesc]
    exact pairwise_insertDesc (ih hrest)
      (fun q hq => hp q ((sortDesc_perm rest).subset hq))

theorem firstSeenAux_subset : ∀ (xs seen : List String) (a : String),
    a ∈ firstSeenAux seen xs → a ∈ xs := by
  intro xs
  induction xs with
  | nil =>
    intro seen a ha
    simp [firstSeenAux] at ha
  | cons k rest ih =>
    intro seen a ha
    simp only [firstSeenAux] at ha
    split at ha
    · exact List.mem_cons_of_mem k (ih seen a ha)
    · rcases List.mem_cons.mp ha with rfl | ha'
      · exact List.mem_cons_self _ _
      · exact List.mem_cons_of_mem k (ih (k :: seen) a ha')

theorem firstSeenAux_not_seen : ∀ (xs seen : List String) (a : String),
    a ∈ firstSeenAux seen xs → a ∉ seen := by
  intro xs
  induction xs with
  | nil =>
    intro seen a ha
    simp [firstSeenAux] at ha
  | cons k rest ih =>
    intro seen a ha
    simp only [firstSeenAux] at ha
    split at ha
    · exact ih seen a ha
    · rename_i hk
      rcases List.mem_cons.mp ha with rfl | ha'
      · exact hk
      · intro hs
        exact ih (k :: seen) a ha' (List.mem_cons_of_mem k hs)

theorem mem_firstSeenAux : ∀ (xs seen : List String) (a : String),
    a ∈ xs → a ∉ seen → a ∈ firstSeenAux seen xs := by
  intro xs
  induction xs with
  | nil =>
    intro seen a ha _
    simp at ha
  | cons k rest ih =>
    intro seen a ha hns
    simp only [firstSeenAux]
    split
    · rename_i hk
      rcases List.mem_cons.mp ha with rfl | ha'
      · exact absurd hk hns
      · exact ih seen a ha' hns
    · rename_i hk
      rcases List.mem_cons.mp ha with rfl | ha'
      · exact List.mem_cons_self _ _
      · by_cases hak : a = k
        · subst hak
          exact List.mem_cons_self _ _
        · refine List.mem_cons_of_mem k (ih (k :: seen) a ha' ?_)
          intro hs
          rcases List.mem_cons.mp hs with h1 | h1
          · exact hak h1
          · exact hns h1

theorem firstIdx_cons_self (k : String) (rest : List String) :
    firstIdx k (k :: rest) = 0 := by
  simp [firstIdx]

theorem firstIdx_cons_ne {x k : String} (h : x ≠ k) (rest : List String) :
    firstIdx k (x :: rest) = firstIdx k rest + 1 := by
  simp [firstIdx, h]

theorem firstSeenAux_pairwise : ∀ (xs seen : List String),
    (firstSeenAux seen xs).Pairwise (fun a b => firstIdx a xs < firstIdx b xs) := by
  intro xs
  induction xs with
  | nil =>
    intro seen
    simp [firstSeenAux]
  | cons k rest ih =>
    intro seen
    simp only [firstSeenAux]
    split
    · rename_i hk
      refine (ih seen).imp_of_mem ?_
      intro a b ha hb hab
      have hak : a ≠ k := fun he => (firstSeenAux_not_seen rest seen a ha) (by rw [he]; exact hk)
      have hbk : b ≠ k := fun he => (firstSeenAux_not_seen rest seen b hb) (by rw [he]; exact hk)
      rw [firstIdx_cons_ne (Ne.symm hak), firstIdx_cons_ne (Ne.symm hbk)]
      omega
    · rename_i hk
      refine List.Pairwise.cons ?_ ?_
      · intro b hb
        have hbk : b ≠ k := fun he => (firstSeenAux_not_seen rest (k :: seen) b hb)
          (by rw [he]; exact List.mem_cons_self k seen)
        rw [firstIdx_cons_self, firstIdx_cons_ne (Ne.symm hbk)]
        omega
      · refine (ih (k :: seen)).imp_of_mem ?_
        intro a b ha hb hab
        have hak : a ≠ k := fun he => (firstSeenAux_not_seen rest (k :: seen) a ha)
          (by rw [he]; exact List.mem_cons_self k seen)
        have hbk : b ≠ k := fun he => (firstSeenAux_not_seen rest (k :: seen) b hb)
          (by rw [he]; exact List.mem_cons_self k seen)
        rw [firstIdx_cons_ne (Ne.symm hak), firstIdx_cons_ne (Ne.symm hbk)]
        omega

theorem groupCounts_pairwise (keys : List String) :
    (groupCounts keys).Pairwise
      (fun p q => firstIdx p.1 keys < firstIdx q.1 keys) := by
  unfold groupCounts firstSeen
  rw [List.pairwise_map]
  exact firstSeenAux_pairwise keys []

theorem topOf_ok (keys : List String) : topListOk keys (topOf keys) := by
  have hperm := sortDesc_perm (groupCounts keys)
  have hpair : (sortDesc (groupCounts keys)).Pairwise
      (fun a b => b.2 < a.2 ∨ (b.2 = a.2 ∧ firstIdx a.1 keys < firstIdx b.1 keys)) :=
    pairwise_sortDesc (groupCounts_pairwise keys)
  unfold topListOk topOf
  refine ⟨?_, ?_, ?_, ?_⟩
  · rw [List.length_take, hperm.length_eq]
    simp [groupCounts]
  · intro p hp
    have h1 : p ∈ sortDesc (groupCounts keys) := List.take_subset _ _ hp
    have h2 : p ∈ groupCounts keys := hperm.subset h1
    unfold groupCounts at h2
    rcases List.mem_map.mp h2 with ⟨k, hk, rfl⟩
    exact ⟨rfl, firstSeenAux_subset keys [] k hk⟩
  · exact List.Pairwise.sublist (List.take_sublist _ _) hpair
  · intro k hk hnot p hp
    have hkfs : k ∈ firstSeen keys := mem_firstSeenAux keys [] k hk (by simp)
    have hq : (k, keys.count k) ∈ sortDesc (groupCounts keys) :=
      hperm.mem_iff.mpr (by unfold groupCounts; exact List.mem_map_of_mem _ hkfs)
    have hpair2 : ((sortDesc (groupCounts keys)).take topN
        ++ (sortDesc (groupCounts keys)).drop topN).Pairwise
          (fun a b => b.2 < a.2 ∨ (b.2 = a.2 ∧ firstIdx a.1 keys < firstIdx b.1 keys)) := by
      rw [List.take_append_drop]
      exact hpair
    obtain ⟨-, -, hcross⟩ := List.pairwise_append.mp hpair2
    have hqmem : (k, keys.count k) ∈ (sortDesc (groupCounts keys)).take topN
        ++ (sortDesc (groupCounts keys)).drop topN := by
      rw [List.take_append_drop]
      exact hq
    rcases List.mem_append.mp hqmem with h1 | h2
    · exact absurd (List.mem_map_of_mem Prod.fst h1) hnot
    · have h3 := hcross p hp _ h2
      rcases h3 with hlt | ⟨heq, -⟩
      · exact Nat.le_of_lt hlt
      · exact Nat.le_of_eq heq

/-- Claim C4: the `topCategories` and `topLocations` of `calculateMetrics`
are the per-category / per-city occurrence counts (grouped by exact,
case-sensitive string, the empty string being a valid key), sorted descending
by count with the first occurrence position in the input as tie-break, and
truncated to the configured top-N length (see `topListOk`). -/
theorem topLists_spec : ∀ cs : List Company,
    topListOk (cs.map (fun c => c.category)) ((calculateMetrics cs).topCategories)
    ∧ topListOk (cs.map (fun c => c.city)) ((calculateMetrics cs).topLocations) := by
  intro cs
  exact ⟨topOf_ok _, topOf_ok _⟩

theorem cleanCh_spec (c : Char) (h : cleanCh c = true) :
    c ≠ ',' ∧ c ≠ '"' ∧ c ≠ '\n' ∧ c ≠ '\r' := by
  simp only [cleanCh] at h
  simp at h
  exact ⟨h.1.1.1, h.1.1.2, h.1.2, h.2⟩

theorem splitSep_clean_cons (sep c : Char) (t : List Char)
    (hsep : c ≠ sep) (hq : c ≠ '"') :
    splitSep sep (c :: t) false = consHead c (splitSep sep t false) := by
  simp [splitSep, hsep, hq]

theorem splitSep_clean_single (sep : Char) (f : List Char)
    (h : ∀ c ∈ f, c ≠ sep ∧ c ≠ '"') : splitSep sep f false = [f] := by
  induction f with
  | nil => rfl
  | cons c t ih =>
    have hc := h c (List.mem_cons_self c t)
    rw [splitSep_clean_cons sep c t hc.1 hc.2,
      ih (fun x hx => h x (List.mem_cons_of_mem c hx))]
    rfl

theorem splitSep_clean_append (sep : Char) (hsep : sep ≠ '"') (f t : List Char)
    (h : ∀ c ∈ f, c ≠ sep ∧ c ≠ '"') :
    splitSep sep (f ++ sep :: t) false = f :: splitSep sep t false := by
  induction f with
  | nil =>
    simp only [List.nil_append, splitSep]
    rw [if_neg (by simp [hsep]), if_pos (by simp)]
  | cons c f' ih =>
    have hc := h c (List.mem_cons_self _ _)
    rw [List.cons_append, splitSep_clean_cons sep c _ hc.1 hc.2,
      ih (fun x hx => h x (List.mem_cons_of_mem c hx))]
    rfl

theorem joinWith_split (sep : Char) (hsep : sep ≠ '"') :
    ∀ (ls : List (List Char)), ls ≠ [] →
      (∀ l ∈ ls, ∀ c ∈ l, c ≠ sep ∧ c ≠ '"') →
      splitSep sep (joinWith [sep] ls) false = ls := by
  intro ls
  induction ls with
  | nil =>
    intro h _
    exact absurd rfl h
  | cons x ls' ih =>
    intro _ h
    cases ls' with
    | nil =>
      exact splitSep_clean_single sep x (h x (List.mem_cons_self _ _))
    | cons y rest =>
      show splitSep sep (x ++ [sep] ++ joinWith [sep] (y :: rest)) false = x :: y :: rest
      rw [List.append_assoc, List.singleton_append,
        splitSep_clean_append sep hsep x _ (h x (List.mem_cons_self _ _)),
        ih (by simp) (fun l hl => h l (List.mem_cons_of_mem x hl))]

theorem mem_joinWith (sep : List Char) : ∀ (ls : List (List Char)) (c : Char),
    c ∈ joinWith sep ls → c ∈ sep ∨ ∃ l ∈ ls, c ∈ l := by
  intro ls
  induction ls with
  | nil =>
    intro c hc
    simp [joinWith] at hc
  | cons x ls' ih =>
    intro c hc
    cases ls' with
    | nil => exact Or.inr ⟨x, List.mem_cons_self _ _, hc⟩
    | cons y rest =>
      have hc' : c ∈ x ++ sep ++ joinWith sep (y :: rest) := hc
      rcases List.mem_append.mp hc' with h1 | h2
      · rcases List.mem_append.mp h1 with ha | hb
        · exact Or.inr ⟨x, List.mem_cons_self _ _, ha⟩
        · exact Or.inl hb
      · rcases ih c h2 with h3 | ⟨l, hl, hcl⟩
        · exact Or.inl h3
        · exact Or.inr ⟨l, List.mem_cons_of_mem x hl, hcl⟩

theorem quoteField_clean (f : List Char) (h : f.all cleanCh = true) :
    quoteField f = f := by
  unfold quoteField
  rw [if_neg]
  intro hany
  rcases List.any_eq_true.mp hany with ⟨c, hc, hbad⟩
  have hcc := List.all_eq_true.mp h c hc
  rw [cleanCh, hbad] at hcc
  simp at hcc

theorem stripCR_no_cr (l : List Char) (h : ∀ c ∈ l, c ≠ '\r') : stripCR l = l := by
  unfold stripCR
  split
  · rename_i t heq
    exfalso
    have hmem : '\r' ∈ l.reverse := by rw [heq]; exact List.mem_cons_self _ _
    exact h '\r' (List.mem_reverse.mp hmem) rfl
  · rfl

theorem unquoteField_clean (f : List Char) (h : f.all cleanCh = true) :
    unquoteField f = f := by
  unfold unquoteField
  split
  · rename_i rest
    exfalso
    have hq : cleanCh '"' = false := by decide
    rw [List.all_cons, hq] at h
    simp at h
  · rfl

theorem parseGrid_unparse (rows : List (List String)) (hne : rows ≠ [])
    (hrow : ∀ r ∈ rows, r ≠ [])
    (h : ∀ r ∈ rows, ∀ f ∈ r, cleanS f = true) :
    parseGrid (unparse rows) = rows := by
  unfold parseGrid unparse
  have hq : (rows.map (fun r => joinWith [','] (r.map (fun f => quoteField f.data))))
      = rows.map (fun r => joinWith [','] (r.map (fun f => f.data))) := by
    refine List.map_congr_left ?_
    intro r hr
    refine congrArg (joinWith [',']) (List.map_congr_left ?_)
    intro f hf
    exact quoteField_clean f.data (h r hr f hf)
  rw [hq]
  have hline : ∀ l ∈ rows.map (fun r => joinWith [','] (r.map (fun f => f.data))),
      ∀ c ∈ l, c ≠ '\n' ∧ c ≠ '"' := by
    intro l hl c hc
    rcases List.mem_map.mp hl with ⟨r, hr, rfl⟩
    rcases mem_joinWith [','] _ c hc with hsep | ⟨fd, hfd, hcf⟩
    · have : c = ',' := by simpa using hsep
      subst this
      exact ⟨by decide, by decide⟩
    · rcases List.mem_map.mp hfd with ⟨f, hf, rfl⟩
      have hcc := cleanCh_spec c (List.all_eq_true.mp (h r hr f hf) c hcf)
      exact ⟨hcc.2.2.1, hcc.2.1⟩
  rw [joinWith_split '\n' (by decide) _ (by simpa using hne) hline]
  rw [List.map_map]
  have : ∀ r ∈ rows,
      ((fun line => (splitSep ',' (stripCR line) false).map
          (fun f => String.mk (unquoteField f)))
        ∘ fun r => joinWith [','] (r.map (fun f => f.data))) r = id r := by
    intro r hr
    show (splitSep ',' (stripCR (joinWith [','] (r.map (fun f => f.data)))) false).map
        (fun f => String.mk (unquoteField f)) = r
    have hnr : ∀ c ∈ joinWith [','] (r.map (fun f => f.data)), c ≠ '\r' := by
      intro c hc
      rcases mem_joinWith [','] _ c hc with hsep | ⟨fd, hfd, hcf⟩
      · have : c = ',' := by simpa using hsep
        subst this
        decide
      · rcases List.mem_map.mp hfd with ⟨f, hf, rfl⟩
        exact (cleanCh_spec c (List.all_eq_true.mp (h r hr f hf) c hcf)).2.2.2
    rw [stripCR_no_cr _ hnr]
    have hfclean : ∀ fd ∈ r.map (fun f => f.data), ∀ c ∈ fd, c ≠ ',' ∧ c ≠ '"' := by
      intro fd hfd c hcf
      rcases List.mem_map.mp hfd with ⟨f, hf, rfl⟩
      have hcc := cleanCh_spec c (List.all_eq_true.mp (h r hr f hf) c hcf)
      exact ⟨hcc.1, hcc.2.1⟩
    rw [joinWith_split ',' (by decide) _ (by simpa using hrow r hr) hfclean]
    rw [List.map_map]
    have : ∀ f ∈ r, ((fun fd => String.mk (unquoteField fd))
        ∘ fun f => f.data) f = id f := by
      intro f hf
      show String.mk (unquoteField f.data) = f
      rw [unquoteField_clean f.data (h r hr f hf)]
    rw [List.map_congr_left this, List.map_id]
  rw [List.map_congr_left this, List.map_id]

theorem chopLead_mem : ∀ (l pre r : List Char), chopLead l pre = some r →
    ∀ c ∈ pre, c ∈ l := by
  intro l pre
  induction pre generalizing l with
  | nil =>
    intro r _ c hc
    simp at hc
  | cons d pre' ih =>
    intro r hr c hc
    cases l with
    | nil => simp [chopLead] at hr
    | cons x l' =>
      simp only [chopLead] at hr
      split at hr
      · rename_i hxd
        rcases List.mem_cons.mp hc with rfl | hc'
        · have : x = c := by simpa using hxd
          rw [this]
          exact List.mem_cons_self _ _
        · exact List.mem_cons_of_mem x (ih l' r hr c hc')
      · exact absurd hr (by simp)

theorem famIdx_none_of_no_slash (fam key : String) (h : '/' ∉ key.data) :
    famIdx fam key = none := by
  unfold famIdx
  rcases hch : chopLead key.data (fam.data ++ ['/']) with _ | r
  · rfl
  · exfalso
    exact h (chopLead_mem _ _ r hch '/' (List.mem_append.mpr (Or.inr (List.mem_cons_self _ _))))

theorem mkRow_key_mem {header fields : List String} {p : String × String}
    (hp : p ∈ mkRow header fields) : p.1 ∈ header := by
  obtain ⟨a, b⟩ := p
  exact (List.of_mem_zip hp).1

theorem headerFields_no_slash : ∀ k ∈ headerFields, '/' ∉ k.data := by
  decide

theorem familyValues_export (fields : List String) (fam : String) :
    familyValues (mkRow headerFields fields) fam = [] := by
  unfold familyValues
  have hnil : (mkRow headerFields fields).filterMap
      (fun p => (famIdx fam p.1).map (fun n => (n, trimS p.2))) = [] := by
    rw [List.filterMap_eq_nil_iff]
    intro p hp
    rw [famIdx_none_of_no_slash fam p.1 (headerFields_no_slash p.1 (mkRow_key_mem hp))]
    rfl
  rw [hnil]
  rfl

theorem getCol_export_absent (fields : List String) (key : String)
    (hk : ∀ k ∈ headerFields, k ≠ key) :
    getCol (mkRow headerFields fields) key = "" := by
  unfold getCol
  rw [List.find?_eq_none.mpr]
  intro p hp
  simp only [beq_iff_eq]
  exact hk p.1 (mkRow_key_mem hp)

theorem mkRow_export (c : Company) :
    mkRow headerFields (rowFields c)
      = [("Name", c.name), ("Category", c.category), ("City", c.city),
        ("Lead Score", Nat.repr c.leadScore), ("Phone", joinSemi c.phones),
        ("Email", joinSemi c.emails), ("LinkedIn", joinSemi c.linkedIns),
        ("Type", if c.isStaff then "Service Provider" else "Client")] := rfl

theorem buildCompany_export_row (i : Nat) (c : Company) :
    buildCompany i (mkRow headerFields (rowFields c)) = emptyCompany i := by
  have hw : whatsOf (mkRow headerFields (rowFields c)) = [] := by
    simp only [whatsOf, familyValues_export (rowFields c) "whatsapps",
      getCol_export_absent (rowFields c) "whatsapps" (by decide)]
    decide
  have hp : phonesOf (mkRow headerFields (rowFields c)) = [] := by
    simp only [phonesOf, getCol_export_absent (rowFields c) "phone" (by decide),
      getCol_export_absent (rowFields c) "phoneUnformatted" (by decide)]
    decide
  simp only [buildCompany, hw, hp,
    familyValues_export (rowFields c) "emails",
    familyValues_export (rowFields c) "linkedIns",
    getCol_export_absent (rowFields c) "title" (by decide),
    getCol_export_absent (rowFields c) "categoryName" (by decide),
    getCol_export_absent (rowFields c) "city" (by decide),
    getCol_export_absent (rowFields c) "url" (by decide),
    getCol_export_absent (rowFields c) "googleMapsUrl" (by decide)]
  rfl

theorem export_row_not_blank (c : Company) :
    isBlankRow (mkRow headerFields (rowFields c)) = false := by
  rw [Bool.eq_false_iff]
  intro hall
  have hmem : (("Type" : String),
      if c.isStaff then ("Service Provider" : String) else "Client")
        ∈ mkRow headerFields (rowFields c) := by
    rw [mkRow_export]
    simp
  have hbad := List.all_eq_true.mp hall _ hmem
  cases hs : c.isStaff <;> simp [hs] at hbad

theorem enumIdx_build_empty : ∀ (cs : List Company) (i : Nat),
    (enumIdx i (cs.map (fun c => mkRow headerFields (rowFields c)))).map
        (fun p => buildCompany p.1 p.2)
      = (List.range' i cs.length).map emptyCompany := by
  intro cs
  induction cs with
  | nil => intro i; rfl
  | cons c rest ih =>
    intro i
    simp only [List.map_cons, enumIdx, List.length_cons, List.range'_succ]
    rw [buildCompany_export_row]
    exact congrArg (emptyCompany i :: ·) (ih (i + 1))

theorem natRepr_clean : ∀ n : Nat, n ≤ 100 → cleanS (Nat.repr n) = true := by
  decide

theorem joinSemi_clean (xs : List String) (h : xs.all cleanS = true) :
    cleanS (joinSemi xs) = true := by
  unfold cleanS joinSemi
  rw [List.all_eq_true]
  intro c hc
  rcases mem_joinWith [';', ' '] _ c hc with hsep | ⟨fd, hfd, hcf⟩
  · have : c = ';' ∨ c = ' ' := by simpa using hsep
    rcases this with rfl | rfl <;> decide
  · rcases List.mem_map.mp hfd with ⟨s, hs, rfl⟩
    have h1 := List.all_eq_true.mp h s hs
    unfold cleanS at h1
    exact List.all_eq_true.mp h1 c hcf

theorem headerFields_clean : ∀ f ∈ headerFields, cleanS f = true := by
  decide

/-- Claim C9 (amended): the export/re-ingest round trip does NOT preserve a
company's fields. The export's column headers (`Name`, `Category`, `City`,
`Lead Score`, `Phone`, `Email`, `LinkedIn`, `Type`) are not among the
ingestion's recognized columns (`title`, `categoryName`, `city`, `phone`,
`phoneUnformatted`, `url`, `googleMapsUrl`, `emails/<n>`, `linkedIns/<n>`,
`whatsapps`), so re-ingesting the export of any collection whose exported
field values need no CSV quoting yields one default record per company —
empty name, category, city and contact lists, position-derived id and the
scorer's floor — never the original data. -/
theorem exportRoundTrip_amended : ∀ cs : List Company,
    cs.all cleanCompany = true →
    parseCSV (exportCSV cs) = (List.range cs.length).map emptyCompany := by
  intro cs hclean
  unfold parseCSV exportCSV
  have hgrid : parseGrid (String.mk (unparse (headerFields :: cs.map rowFields))).data
      = headerFields :: cs.map rowFields := by
    show parseGrid (unparse (headerFields :: cs.map rowFields)) = _
    apply parseGrid_unparse
    · simp
    · intro r hr
      rcases List.mem_cons.mp hr with rfl | hr'
      · simp [headerFields]
      · rcases List.mem_map.mp hr' with ⟨c, _, rfl⟩
        simp [rowFields]
    · intro r hr f hf
      rcases List.mem_cons.mp hr with rfl | hr'
      · exact headerFields_clean f hf
      · rcases List.mem_map.mp hr' with ⟨c, hc, rfl⟩
        have hcc := List.all_eq_true.mp hclean c hc
        simp only [cleanCompany, Bool.and_eq_true, decide_eq_true_eq] at hcc
        obtain ⟨⟨⟨⟨⟨⟨hn, hcat⟩, hcity⟩, hph⟩, hem⟩, hli⟩, hsc⟩ := hcc
        simp [rowFields] at hf
        rcases hf with rfl | rfl | rfl | rfl | rfl | rfl | rfl | rfl
        · exact hn
        · exact hcat
        · exact hcity
        · exact natRepr_clean _ hsc
        · exact joinSemi_clean _ hph
        · exact joinSemi_clean _ hem
        · exact joinSemi_clean _ hli
        · cases hs : c.isStaff <;> simp [hs] <;> decide
  rw [hgrid]
  show (enumIdx 0 (((cs.map rowFields).map (mkRow headerFields)).filter
      (fun r => !isBlankRow r))).map (fun p => buildCompany p.1 p.2) = _
  have hcomp : (cs.map rowFields).map (mkRow headerFields)
      = cs.map (fun c => mkRow headerFields (rowFields c)) := by
    rw [List.map_map]
    rfl
  rw [hcomp]
  have hfilt : (cs.map (fun c => mkRow headerFields (rowFields c))).filter
      (fun r => !isBlankRow r) = cs.map (fun c => mkRow headerFields (rowFields c)) := by
    rw [List.filter_eq_self]
    intro r hr
    rcases List.mem_map.mp hr with ⟨c, _, rfl⟩
    rw [export_row_not_blank]
    rfl
  rw [hfilt, List.range_eq_range']
  exact enumIdx_build_empty cs 0

/-- Witness for C9's amended theorem at a concrete company. -/
theorem exportRoundTrip_amended_witness :
    parseCSV (exportCSV [coAcme])
      = (List.range (List.length [coAcme])).map emptyCompany :=
  exportRoundTrip_amended [coAcme] (by decide)

/-- Counterexample for C9 as stated: re-ingesting the export of `[coAcme]`
does not preserve the company name (the parsed name is empty, not "Acme"). -/
theorem exportRoundTrip_cex :
    (parseCSV (exportCSV [coAcme])).map (fun c => c.name)
      ≠ [coAcme].map (fun c => c.name) := by
  decide

end LeadDemo
